import Mathlib

/-!
Shallow embedding of the CPU software rasterizer (GL_Template_V0/Engine.cpp)
and verification of its specification claims.

Modelling conventions:
* C++ `float` arithmetic is embedded as exact rational arithmetic (`ℚ`);
  float literals such as `0.2126f` are taken at their decimal value.
* `std::exp` and `std::pow` (transcendental, not rational-computable) are
  passed in as explicit function parameters `fexp`/`fpow`; theorems
  quantify over them.
* A float that may be NaN is modelled by the type `FVal`: either `FVal.nan`
  or `FVal.val q`.  The C++ NaN self-comparison test `!(z == z)` becomes a
  test for the `nan` constructor.
* Byte buffers (`std::vector<uint8_t>`) are `List ℕ` read through
  `List.getD _ 0` and written through `List.set`; float buffers
  (`std::vector<float>`) are `List ℚ`.
* `int` coordinates are `ℤ`; buffer sizes are `ℕ`.
* An imperative loop that writes every cell of a freshly sized buffer
  exactly once, in row-major order, is embedded as a row-major
  `List.flatMap` producing the same buffer.
-/

namespace Engine

/-- Color with four 8-bit channels, from Engine.h.  Default-constructed
`Color c; ... Color()` is opaque black: r = g = b = 0, a = 255. -/
structure Color where
  r : ℕ
  g : ℕ
  b : ℕ
  a : ℕ
deriving DecidableEq, Repr

/-- Blend modes from Engine.h. -/
inductive BlendMode where
  | Overwrite
  | Alpha
  | Additive
  | Multiply
deriving DecidableEq, Repr

/-- 2D float vector, from Engine.h. -/
structure Vec2 where
  x : ℚ
  y : ℚ
deriving DecidableEq, Repr

/-- 3D float vector, from Engine.h. -/
structure Vec3 where
  x : ℚ
  y : ℚ
  z : ℚ
deriving DecidableEq, Repr

/-- 4D float vector, from Engine.h. -/
structure Vec4 where
  x : ℚ
  y : ℚ
  z : ℚ
  w : ℚ
deriving DecidableEq, Repr

/-- Column-major 4x4 matrix, from Engine.h: 16 floats as a list. -/
structure Mat4 where
  m : List ℚ
deriving DecidableEq, Repr

/-- CPU-side RGBA image, from Engine.h. -/
structure Image where
  w : ℕ
  h : ℕ
  rgba : List ℕ
deriving DecidableEq, Repr

/-- Image validity predicate from Engine.h: positive dimensions and a
tightly packed RGBA byte buffer. -/
def Image.valid (img : Image) : Bool :=
  0 < img.w && 0 < img.h && img.rgba.length = img.w * img.h * 4

/-- Mesh vertex from Engine.h: position, color in 0..1, UV in 0..1. -/
structure Vertex3D where
  pos : Vec3
  color : Vec3
  uv : Vec2
deriving DecidableEq, Repr

/-- BloomSettings from Engine.h. -/
structure BloomSettings where
  enabled : Bool
  threshold : ℚ
  intensity : ℚ
  downsample : ℤ
  sigma : ℚ
deriving DecidableEq, Repr

/-- ToneSettings from Engine.h. -/
structure ToneSettings where
  enabled : Bool
  exposure : ℚ
  gamma : ℚ
deriving DecidableEq, Repr

/-- PostProcessSettings from Engine.h. -/
structure PostProcessSettings where
  bloom : BloomSettings
  tone : ToneSettings
deriving DecidableEq, Repr

/-- Bloom scratch buffers, from the BloomBuffers struct in Engine.cpp. -/
structure BloomBuffers where
  w : ℕ
  h : ℕ
  a : List ℚ
  b : List ℚ
  kernel : List ℚ
  radius : ℕ
deriving DecidableEq, Repr

/-- The rasterizer-relevant part of the global engine State struct in
Engine.cpp: framebuffer, depth buffer, clip rectangle, blend mode, dirty
rectangle, post-process settings and scratch buffers.  Window/GL/input
fields are irrelevant to the verified claims and omitted. -/
structure State where
  fb_w : ℕ
  fb_h : ℕ
  color : List ℕ
  depth_on : Bool
  depth : List ℚ
  clip_on : Bool
  clip_x : ℤ
  clip_y : ℤ
  clip_w : ℤ
  clip_h : ℤ
  blend : BlendMode
  dirty_on : Bool
  dirty_empty : Bool
  dirty_minx : ℤ
  dirty_miny : ℤ
  dirty_maxx : ℤ
  dirty_maxy : ℤ
  post : PostProcessSettings
  post_out : List ℕ
  bloom : BloomBuffers
deriving DecidableEq, Repr

/-- A float value that may be NaN.  The rasterizer's depth test rejects NaN
through the self-comparison idiom; every other value behaves as a rational. -/
inductive FVal where
  | nan
  | val (q : ℚ)
deriving DecidableEq, Repr

/-- Test for the NaN constructor; embeds the C++ idiom `!(z == z)`. -/
def FVal.isNaN : FVal → Bool
  | .nan => true
  | .val _ => false

/-- Embeds `std::max` on floats: returns b when a compares less than b. -/
def fmax (a b : ℚ) : ℚ := if a < b then b else a

/-- Embeds `std::min` on floats: returns b when b compares less than a. -/
def fmin (a b : ℚ) : ℚ := if b < a then b else a

/-- Embeds `std::max` on ints. -/
def imax (a b : ℤ) : ℤ := if a < b then b else a

/-- Embeds `std::min` on ints. -/
def imin (a b : ℤ) : ℤ := if b < a then b else a

/-- Embeds `std::abs` on floats. -/
def fabs (q : ℚ) : ℚ := if q < 0 then -q else q

theorem fmax_eq_max (a b : ℚ) : fmax a b = max a b := by
  rcases lt_or_le a b with h | h
  · simp [fmax, h, max_eq_right h.le]
  · simp [fmax, not_lt.mpr h, max_eq_left h]

theorem fmin_eq_min (a b : ℚ) : fmin a b = min a b := by
  rcases lt_or_le b a with h | h
  · simp [fmin, h, min_eq_right h.le]
  · simp [fmin, not_lt.mpr h, min_eq_left h]

theorem imax_eq_max (a b : ℤ) : imax a b = max a b := by
  rcases lt_or_le a b with h | h
  · simp [imax, h, max_eq_right h.le]
  · simp [imax, not_lt.mpr h, max_eq_left h]

theorem imin_eq_min (a b : ℤ) : imin a b = min a b := by
  rcases lt_or_le b a with h | h
  · simp [imin, h, min_eq_right h.le]
  · simp [imin, not_lt.mpr h, min_eq_left h]

theorem fabs_eq_abs (q : ℚ) : fabs q = |q| := by
  rcases lt_or_le q 0 with h | h
  · simp [fabs, h, abs_of_neg h]
  · simp [fabs, not_lt.mpr h, abs_of_nonneg h]

/-- Float clamp from Engine.cpp: `max(a, min(b, v))`. -/
def clampf (v a b : ℚ) : ℚ := fmax a (fmin b v)

/-- Integer clamp from Engine.cpp: `max(a, min(b, v))`. -/
def clampi (v a b : ℤ) : ℤ := imax a (imin b v)

/-- Embeds `std::lround`: round half away from zero. -/
def lroundQ (q : ℚ) : ℤ := if 0 ≤ q then ⌊q + 1/2⌋ else ⌈q - 1/2⌉

/-- Conversion of a 0..1 float to a byte, from Engine.cpp `to_u8`. -/
def to_u8 (v01 : ℚ) : ℕ := (clampi (lroundQ (clampf v01 0 1 * 255)) 0 255).toNat

/-- Row-major RGBA index from Engine.cpp `idx_rgba` (top-left origin). -/
def idx_rgba (w : ℕ) (x y : ℤ) : ℕ := ((y * w + x) * 4).toNat

/-- In-bounds test used by write_pixel / depth_test_write / get_pixel:
the C++ guard `x < 0 || y < 0 || x >= fb_w || y >= fb_h`, negated. -/
def in_bounds (s : State) (x y : ℤ) : Prop :=
  0 ≤ x ∧ 0 ≤ y ∧ x < (s.fb_w : ℤ) ∧ y < (s.fb_h : ℤ)

instance (s : State) (x y : ℤ) : Decidable (in_bounds s x y) := by
  unfold in_bounds; infer_instance

/-- Clip test from Engine.cpp `in_clip`. -/
def in_clip (s : State) (x y : ℤ) : Bool :=
  if ¬ s.clip_on then true
  else decide (x ≥ s.clip_x ∧ y ≥ s.clip_y ∧
    x < s.clip_x + s.clip_w ∧ y < s.clip_y + s.clip_h)

/-- Dirty-rectangle accumulation from Engine.cpp `dirty_add`. -/
def dirty_add (s : State) (x y : ℤ) : State :=
  if ¬ s.dirty_on then s
  else if x < 0 ∨ y < 0 ∨ x ≥ (s.fb_w : ℤ) ∨ y ≥ (s.fb_h : ℤ) then s
  else if s.dirty_empty then
    { s with dirty_minx := x, dirty_maxx := x, dirty_miny := y, dirty_maxy := y,
             dirty_empty := false }
  else
    { s with dirty_minx := imin s.dirty_minx x, dirty_miny := imin s.dirty_miny y,
             dirty_maxx := imax s.dirty_maxx x, dirty_maxy := imax s.dirty_maxy y }

/-- Dirty-rectangle accumulation of a rectangle, Engine.cpp `dirty_add_rect`. -/
def dirty_add_rect (s : State) (x y w h : ℤ) : State :=
  if ¬ s.dirty_on then s
  else
    let s1 := dirty_add s x y
    let s2 := dirty_add s1 (x + w - 1) y
    let s3 := dirty_add s2 x (y + h - 1)
    dirty_add s3 (x + w - 1) (y + h - 1)

/-- Reads the destination pixel's four bytes at a buffer index. -/
def read_color_at (color : List ℕ) (i : ℕ) : Color :=
  ⟨color.getD i 0, color.getD (i+1) 0, color.getD (i+2) 0, color.getD (i+3) 0⟩

/-- Writes a color's four bytes at a buffer index. -/
def store_color_at (color : List ℕ) (i : ℕ) (c : Color) : List ℕ :=
  (((color.set i c.r).set (i+1) c.g).set (i+2) c.b).set (i+3) c.a

/-- The per-channel Alpha blend of Engine.cpp write_pixel (straight-alpha
compositing in 0..1 floats, rounded back to a byte). -/
def alpha_blend_chan (sa : ℚ) (sc dc : ℕ) : ℕ :=
  let sq : ℚ := (sc : ℚ) / 255
  let dq : ℚ := (dc : ℚ) / 255
  let o : ℚ := sq * sa + dq * (1 - sa)
  (clampi (lroundQ (o * 255)) 0 255).toNat

/-- The blend computation of Engine.cpp write_pixel: given the active mode,
source and destination colors, the color actually stored. -/
def blend_color (mode : BlendMode) (src dst : Color) : Color :=
  match mode with
  | .Overwrite => src
  | .Alpha =>
    let sa : ℚ := (src.a : ℚ) / 255
    let da : ℚ := (dst.a : ℚ) / 255
    let oa : ℚ := sa + da * (1 - sa)
    ⟨alpha_blend_chan sa src.r dst.r,
     alpha_blend_chan sa src.g dst.g,
     alpha_blend_chan sa src.b dst.b,
     (clampi (lroundQ (oa * 255)) 0 255).toNat⟩
  | .Additive =>
    ⟨(clampi ((dst.r : ℤ) + (src.r : ℤ)) 0 255).toNat,
     (clampi ((dst.g : ℤ) + (src.g : ℤ)) 0 255).toNat,
     (clampi ((dst.b : ℤ) + (src.b : ℤ)) 0 255).toNat,
     255⟩
  | .Multiply =>
    ⟨(dst.r * src.r) / 255, (dst.g * src.g) / 255, (dst.b * src.b) / 255, 255⟩

/-- Engine.cpp `write_pixel`: bounds and clip guard, blend, store, dirty. -/
def write_pixel (s : State) (x y : ℤ) (src : Color) : State :=
  if ¬ in_bounds s x y then s
  else if ¬ in_clip s x y then s
  else
    let i := idx_rgba s.fb_w x y
    let dst := read_color_at s.color i
    let out := blend_color s.blend src dst
    let s' := { s with color := store_color_at s.color i out }
    dirty_add s' x y

/-- Engine.cpp `set_pixel`, the public wrapper over write_pixel. -/
def set_pixel (s : State) (x y : ℤ) (c : Color) : State := write_pixel s x y c

/-- Engine.cpp `get_pixel`: returns a default-constructed Color (opaque
black) out of bounds, otherwise the stored four bytes.  Pure: reads only. -/
def get_pixel (s : State) (x y : ℤ) : Color :=
  if ¬ in_bounds s x y then ⟨0, 0, 0, 255⟩
  else read_color_at s.color (idx_rgba s.fb_w x y)

/-- Engine.cpp `depth_test_write`: returns the pass/fail flag and the
updated state.  Note the code returns true (pass) when depth testing is
globally off; writes the depth buffer only on a strict `z < stored` pass. -/
def depth_test_write (s : State) (x y : ℤ) (z01 : FVal) : Bool × State :=
  if ¬ s.depth_on then (true, s)
  else if ¬ in_bounds s x y then (false, s)
  else if ¬ in_clip s x y then (false, s)
  else if z01.isNaN then (false, s)
  else
    match z01 with
    | .nan => (false, s)
    | .val z =>
      let idx := (y * s.fb_w + x).toNat
      if z < s.depth.getD idx 0 then
        (true, { s with depth := s.depth.set idx z })
      else
        (false, s)

/-- Inclusive integer range `[lo, hi]`, the values visited by a C++
`for (int v = lo; v <= hi; ++v)` loop. -/
def intRange (lo hi : ℤ) : List ℤ :=
  (List.range (hi + 1 - lo).toNat).map (fun i => lo + (i : ℤ))

/-- The degeneracy threshold float literal `1e-8f` used by the triangle
rasterizers and the projection guard, taken at its decimal value. -/
def degenerate_eps : ℚ := 1 / 100000000

/-- Edge function from Engine.cpp `edge_fn`. -/
def edge_fn (a b p : Vec2) : ℚ :=
  (p.x - a.x) * (b.y - a.y) - (p.y - a.y) * (b.x - a.x)

/-- Triangle bounding box from Engine.cpp `tri_bounds`: floor/ceil of the
vertex extremes, clamped to the surface. -/
def tri_bounds (s : State) (a b c : Vec2) : ℤ × ℤ × ℤ × ℤ :=
  let fx0 := fmin a.x (fmin b.x c.x)
  let fy0 := fmin a.y (fmin b.y c.y)
  let fx1 := fmax a.x (fmax b.x c.x)
  let fy1 := fmax a.y (fmax b.y c.y)
  (clampi ⌊fx0⌋ 0 ((s.fb_w : ℤ) - 1),
   clampi ⌊fy0⌋ 0 ((s.fb_h : ℤ) - 1),
   clampi ⌈fx1⌉ 0 ((s.fb_w : ℤ) - 1),
   clampi ⌈fy1⌉ 0 ((s.fb_h : ℤ) - 1))

/-- Engine.cpp `draw_tri_flat`: flat-color triangle fill by edge functions,
with winding normalization and a degenerate-area early return. -/
def draw_tri_flat (s : State) (a b c : Vec2) (col : Color) : State :=
  let bounds := tri_bounds s a b c
  let minx := bounds.1; let miny := bounds.2.1
  let maxx := bounds.2.2.1; let maxy := bounds.2.2.2
  let area := edge_fn a b c
  if fabs area < degenerate_eps then s
  else
    let flip := area < 0
    let A := a
    let B := if flip then c else b
    let C := if flip then b else c
    let s' := (intRange miny maxy).foldl (fun sy (y : ℤ) =>
      (intRange minx maxx).foldl (fun sx (x : ℤ) =>
        let p : Vec2 := ⟨(x : ℚ) + 1/2, (y : ℚ) + 1/2⟩
        let w0 := edge_fn B C p
        let w1 := edge_fn C A p
        let w2 := edge_fn A B p
        if 0 ≤ w0 ∧ 0 ≤ w1 ∧ 0 ≤ w2 then write_pixel sx x y col else sx) sy) s
    dirty_add_rect s' minx miny (maxx - minx + 1) (maxy - miny + 1)

/-- Engine.cpp `draw_tri_grad`: per-vertex-color (Gouraud) triangle fill,
barycentric color blend in 0..1 floats. -/
def draw_tri_grad (s : State) (a : Vec2) (ca : Color) (b : Vec2) (cb : Color)
    (c : Vec2) (cc : Color) : State :=
  let area0 := edge_fn a b c
  if fabs area0 < degenerate_eps then s
  else
    let flip := area0 < 0
    let A := a
    let B := if flip then c else b
    let C := if flip then b else c
    let CA := ca
    let CB := if flip then cc else cb
    let CC := if flip then cb else cc
    let area := if flip then -area0 else area0
    let bounds := tri_bounds s A B C
    let minx := bounds.1; let miny := bounds.2.1
    let maxx := bounds.2.2.1; let maxy := bounds.2.2.2
    let invA := 1 / area
    let s' := (intRange miny maxy).foldl (fun sy (y : ℤ) =>
      (intRange minx maxx).foldl (fun sx (x : ℤ) =>
        let p : Vec2 := ⟨(x : ℚ) + 1/2, (y : ℚ) + 1/2⟩
        let w0 := edge_fn B C p
        let w1 := edge_fn C A p
        let w2 := edge_fn A B p
        if 0 ≤ w0 ∧ 0 ≤ w1 ∧ 0 ≤ w2 then
          let l0 := w0 * invA
          let l1 := w1 * invA
          let l2 := w2 * invA
          let r := ((CA.r : ℚ) * l0 + (CB.r : ℚ) * l1 + (CC.r : ℚ) * l2) / 255
          let gch := ((CA.g : ℚ) * l0 + (CB.g : ℚ) * l1 + (CC.g : ℚ) * l2) / 255
          let bch := ((CA.b : ℚ) * l0 + (CB.b : ℚ) * l1 + (CC.b : ℚ) * l2) / 255
          write_pixel sx x y ⟨to_u8 r, to_u8 gch, to_u8 bch, 255⟩
        else sx) sy) s
    dirty_add_rect s' minx miny (maxx - minx + 1) (maxy - miny + 1)

/-- Engine.cpp `sample_tex_nearest`: clamped nearest-neighbor texture
sample multiplied channel-wise by a tint color. -/
def sample_tex_nearest (tex : Image) (u v : ℚ) (tint : Color) : Color :=
  let u' := clampf u 0 1
  let v' := clampf v 0 1
  let x0 := ⌊u' * ((tex.w : ℚ) - 1) + 1/2⌋
  let y0 := ⌊v' * ((tex.h : ℚ) - 1) + 1/2⌋
  let x := clampi x0 0 ((tex.w : ℤ) - 1)
  let y := clampi y0 0 ((tex.h : ℤ) - 1)
  let i := idx_rgba tex.w x y
  ⟨(tex.rgba.getD i 0 * tint.r) / 255,
   (tex.rgba.getD (i+1) 0 * tint.g) / 255,
   (tex.rgba.getD (i+2) 0 * tint.b) / 255,
   (tex.rgba.getD (i+3) 0 * tint.a) / 255⟩

/-- Engine.cpp `draw_tri_tex`: textured triangle fill with barycentric UV
interpolation and nearest sampling; invalid textures are rejected first. -/
def draw_tri_tex (s : State) (a ua b ub c uc : Vec2) (tex : Image)
    (tint : Color) : State :=
  if ¬ tex.valid then s
  else
    let area0 := edge_fn a b c
    if fabs area0 < degenerate_eps then s
    else
      let flip := area0 < 0
      let A := a
      let B := if flip then c else b
      let C := if flip then b else c
      let UA := ua
      let UB := if flip then uc else ub
      let UC := if flip then ub else uc
      let area := if flip then -area0 else area0
      let bounds := tri_bounds s A B C
      let minx := bounds.1; let miny := bounds.2.1
      let maxx := bounds.2.2.1; let maxy := bounds.2.2.2
      let invA := 1 / area
      let s' := (intRange miny maxy).foldl (fun sy (y : ℤ) =>
        (intRange minx maxx).foldl (fun sx (x : ℤ) =>
          let p : Vec2 := ⟨(x : ℚ) + 1/2, (y : ℚ) + 1/2⟩
          let w0 := edge_fn B C p
          let w1 := edge_fn C A p
          let w2 := edge_fn A B p
          if 0 ≤ w0 ∧ 0 ≤ w1 ∧ 0 ≤ w2 then
            let l0 := w0 * invA
            let l1 := w1 * invA
            let l2 := w2 * invA
            let u := UA.x * l0 + UB.x * l1 + UC.x * l2
            let v := UA.y * l0 + UB.y * l1 + UC.y * l2
            write_pixel sx x y (sample_tex_nearest tex u v tint)
          else sx) sy) s
      dirty_add_rect s' minx miny (maxx - minx + 1) (maxy - miny + 1)

/-- Projected-vertex record from Engine.cpp `VOut`. -/
structure VOut where
  x : ℚ
  y : ℚ
  z : ℚ
  invw : ℚ
  col : Vec3
  uv : Vec2
deriving DecidableEq, Repr

/-- Column-major matrix-vector product, Engine.cpp `mat4_mul(Mat4, Vec4)`. -/
def mat4_mul_vec (a : Mat4) (v : Vec4) : Vec4 :=
  let mi := fun i => a.m.getD i 0
  ⟨mi 0 * v.x + mi 4 * v.y + mi 8 * v.z + mi 12 * v.w,
   mi 1 * v.x + mi 5 * v.y + mi 9 * v.z + mi 13 * v.w,
   mi 2 * v.x + mi 6 * v.y + mi 10 * v.z + mi 14 * v.w,
   mi 3 * v.x + mi 7 * v.y + mi 11 * v.z + mi 15 * v.w⟩

/-- Engine.cpp `project_vertex`: MVP transform, degenerate-w reject,
perspective divide, loose NDC depth reject, viewport map.  Returns `none`
where the C++ returns false. -/
def project_vertex (s : State) (vin : Vertex3D) (mvp : Mat4) : Option VOut :=
  let p : Vec4 := ⟨vin.pos.x, vin.pos.y, vin.pos.z, 1⟩
  let clip := mat4_mul_vec mvp p
  if fabs clip.w < degenerate_eps then none
  else
    let invw := 1 / clip.w
    let ndc_x := clip.x * invw
    let ndc_y := clip.y * invw
    let ndc_z := clip.z * invw
    if ndc_z < -(12/10) ∨ ndc_z > 12/10 then none
    else
      some ⟨(ndc_x * (1/2) + 1/2) * (s.fb_w : ℚ),
            (1 - (ndc_y * (1/2) + 1/2)) * (s.fb_h : ℚ),
            ndc_z * (1/2) + 1/2,
            invw, vin.color, vin.uv⟩

/-- The float literal `1e-12f` guarding the perspective-correct divide in
draw_tri_3d, taken at its decimal value. -/
def invw_eps : ℚ := 1 / 1000000000000

/-- Engine.cpp `draw_tri_3d`: perspective-correct rasterization of one
projected triangle, with optional depth test and optional texture. -/
def draw_tri_3d (s : State) (a b c : VOut) (tex : Option Image)
    (depth_test : Bool) : State :=
  let AA : Vec2 := ⟨a.x, a.y⟩
  let BB0 : Vec2 := ⟨b.x, b.y⟩
  let CC0 : Vec2 := ⟨c.x, c.y⟩
  let bounds := tri_bounds s AA BB0 CC0
  let minx := bounds.1; let miny := bounds.2.1
  let maxx := bounds.2.2.1; let maxy := bounds.2.2.2
  let area0 := edge_fn AA BB0 CC0
  if fabs area0 < degenerate_eps then s
  else
    let flip := area0 < 0
    let A0 := a
    let B0 := if flip then c else b
    let C0 := if flip then b else c
    let BB := if flip then CC0 else BB0
    let CC := if flip then BB0 else CC0
    let area := if flip then -area0 else area0
    let invA := 1 / area
    let s' := (intRange miny maxy).foldl (fun sy (y : ℤ) =>
      (intRange minx maxx).foldl (fun sx (x : ℤ) =>
        let p : Vec2 := ⟨(x : ℚ) + 1/2, (y : ℚ) + 1/2⟩
        let wA := edge_fn BB CC p
        let wB := edge_fn CC AA p
        let wC := edge_fn AA BB p
        if 0 ≤ wA ∧ 0 ≤ wB ∧ 0 ≤ wC then
          let lA := wA * invA
          let lB := wB * invA
          let lC := wC * invA
          let iw := A0.invw * lA + B0.invw * lB + C0.invw * lC
          if iw ≤ invw_eps then sx
          else
            let w := 1 / iw
            let z := (A0.z * A0.invw * lA + B0.z * B0.invw * lB +
                      C0.z * C0.invw * lC) * w
            let dt := depth_test && sx.depth_on
            let res := if dt then depth_test_write sx x y (.val z) else (true, sx)
            if ¬ res.1 then res.2
            else
              let s1 := res.2
              let col : Vec3 :=
                ⟨(A0.col.x * A0.invw * lA + B0.col.x * B0.invw * lB +
                  C0.col.x * C0.invw * lC) * w,
                 (A0.col.y * A0.invw * lA + B0.col.y * B0.invw * lB +
                  C0.col.y * C0.invw * lC) * w,
                 (A0.col.z * A0.invw * lA + B0.col.z * B0.invw * lB +
                  C0.col.z * C0.invw * lC) * w⟩
              let uv : Vec2 :=
                ⟨(A0.uv.x * A0.invw * lA + B0.uv.x * B0.invw * lB +
                  C0.uv.x * C0.invw * lC) * w,
                 (A0.uv.y * A0.invw * lA + B0.uv.y * B0.invw * lB +
                  C0.uv.y * C0.invw * lC) * w⟩
              let out : Color :=
                match tex with
                | some t =>
                  if t.valid then
                    sample_tex_nearest t uv.x uv.y
                      ⟨to_u8 col.x, to_u8 col.y, to_u8 col.z, 255⟩
                  else ⟨to_u8 col.x, to_u8 col.y, to_u8 col.z, 255⟩
                | none => ⟨to_u8 col.x, to_u8 col.y, to_u8 col.z, 255⟩
              write_pixel s1 x y out
        else sx) sy) s
    dirty_add_rect s' minx miny (maxx - minx + 1) (maxy - miny + 1)

/-- Groups an index list into consecutive triples, dropping an incomplete
tail; the C++ draw_mesh loop `for (i = 0; i < icount; i += 3)`. -/
def triples : List ℕ → List (ℕ × ℕ × ℕ)
  | a :: b :: c :: rest => (a, b, c) :: triples rest
  | _ => []

/-- One iteration of the draw_mesh triangle loop: skip the triple if any
index is out of range or any of its vertices failed projection, else
rasterize it. -/
def mesh_tri_step (proj : List (Option VOut)) (tex : Option Image)
    (depth_test : Bool) (s : State) (t : ℕ × ℕ × ℕ) : State :=
  if t.1 ≥ proj.length ∨ t.2.1 ≥ proj.length ∨ t.2.2 ≥ proj.length then s
  else
    match proj.getD t.1 none, proj.getD t.2.1 none, proj.getD t.2.2 none with
    | some va, some vb, some vc => draw_tri_3d s va vb vc tex depth_test
    | _, _, _ => s

/-- Engine.cpp `draw_mesh`: empty-input and non-multiple-of-three guards,
projection of all vertices, then the per-triangle loop. -/
def draw_mesh (s : State) (verts : List Vertex3D) (indices : List ℕ)
    (mvp : Mat4) (tex : Option Image) (enable_depth_test : Bool) : State :=
  if verts.length = 0 ∨ indices.length = 0 then s
  else if indices.length % 3 ≠ 0 then s
  else
    let proj := verts.map (fun v => project_vertex s v mvp)
    (triples indices).foldl (mesh_tri_step proj tex enable_depth_test) s

/-- Engine.cpp `bloom_ensure_buffers`: reallocate the two low-resolution
scratch buffers (zero-filled) when the downsampled size changes, else reuse. -/
def bloom_ensure_buffers (s : State) (w h : ℕ) : State :=
  if s.bloom.w = w ∧ s.bloom.h = h ∧ s.bloom.a ≠ [] ∧ s.bloom.b ≠ [] then s
  else
    let bb := { s.bloom with w := w, h := h,
                             a := List.replicate (w * h * 3) 0,
                             b := List.replicate (w * h * 3) 0 }
    { s with bloom := bb }

/-- One source pixel's accumulation step of the brightpass block loop:
luminance 0.2126 r + 0.7152 g + 0.0722 b, contribution only above the
threshold, normalized by 1 - thr (guarded by the 1e-6 floor). -/
def brightpass_accum (s : State) (thr : ℚ) (acc : ℚ × ℚ × ℚ × ℕ)
    (x y : ℕ) : ℚ × ℚ × ℚ × ℕ :=
  let i := idx_rgba s.fb_w (x : ℤ) (y : ℤ)
  let fr : ℚ := (s.color.getD i 0 : ℚ) / 255
  let fg : ℚ := (s.color.getD (i+1) 0 : ℚ) / 255
  let fb : ℚ := (s.color.getD (i+2) 0 : ℚ) / 255
  let lum := (2126/10000) * fr + (7152/10000) * fg + (722/10000) * fb
  let k := lum - thr
  if 0 < k then
    let k' := k / fmax (1/1000000) (1 - thr)
    (acc.1 + fr * k', acc.2.1 + fg * k', acc.2.2.1 + fb * k', acc.2.2.2 + 1)
  else
    (acc.1, acc.2.1, acc.2.2.1, acc.2.2.2 + 1)

/-- The three floats stored for one bloom pixel by the brightpass: the block
average of the bright-only contributions (the block loops break at the
framebuffer edge, modelled by `takeWhile`). -/
def brightpass_block (s : State) (thr : ℚ) (ds bx by_ : ℕ) : List ℚ :=
  let x0 := bx * ds
  let y0 := by_ * ds
  let acc := (((List.range ds).takeWhile (fun oy => y0 + oy < s.fb_h)).foldl
    (fun acc oy =>
      ((List.range ds).takeWhile (fun ox => x0 + ox < s.fb_w)).foldl
        (fun acc ox => brightpass_accum s thr acc (x0 + ox) (y0 + oy)) acc)
    ((0, 0, 0, 0) : ℚ × ℚ × ℚ × ℕ))
  let cnt := acc.2.2.2
  if 0 < cnt then
    [acc.1 / (cnt : ℚ), acc.2.1 / (cnt : ℚ), acc.2.2.1 / (cnt : ℚ)]
  else
    [acc.1, acc.2.1, acc.2.2.1]

/-- Engine.cpp `bloom_brightpass_downsample`: block-average brightpass into
the low-resolution float buffer `bloom.a` (every cell written once, in
row-major order). -/
def bloom_brightpass_downsample (s : State) (bs : BloomSettings) : State :=
  let ds := (imax 2 bs.downsample).toNat
  let bw := (s.fb_w + ds - 1) / ds
  let bh := (s.fb_h + ds - 1) / ds
  let s0 := bloom_ensure_buffers s bw bh
  let thr := clampf bs.threshold 0 1
  let newa := (List.range bh).flatMap (fun by_ =>
    (List.range bw).flatMap (fun bx => brightpass_block s thr ds bx by_))
  { s0 with bloom := { s0.bloom with a := newa } }

/-- Engine.cpp `build_gaussian_kernel` with `std::exp` as the parameter
`fexp`: radius clamp, raw weights, normalization to unit sum.  Returns the
kernel and the radius. -/
def build_gaussian_kernel (fexp : ℚ → ℚ) (sigma : ℚ) : List ℚ × ℕ :=
  let sigma' := fmax (1/10) sigma
  let radius := (clampi ⌈3 * sigma'⌉ 1 32).toNat
  let inv2s2 := 1 / (2 * sigma' * sigma')
  let raw := (List.range (2 * radius + 1)).map (fun j =>
    let i : ℤ := (j : ℤ) - (radius : ℤ)
    fexp (-(((i * i : ℤ) : ℚ)) * inv2s2))
  let sum := raw.foldl (· + ·) 0
  (raw.map (fun w => w / sum), radius)

/-- One blurred sample: the kernel-weighted sum of an edge-clamped row or
column neighborhood of a low-resolution RGB float buffer. -/
def blur_tap (buf : List ℚ) (K : List ℚ) (R : ℕ)
    (coord : ℤ → ℕ) : ℚ × ℚ × ℚ :=
  (intRange (-(R : ℤ)) (R : ℤ)).foldl (fun (acc : ℚ × ℚ × ℚ) k =>
    let si := coord k
    let w := K.getD (k + (R : ℤ)).toNat 0
    (acc.1 + buf.getD si 0 * w,
     acc.2.1 + buf.getD (si + 1) 0 * w,
     acc.2.2 + buf.getD (si + 2) 0 * w)) (0, 0, 0)

/-- Engine.cpp `bloom_blur_separable`: horizontal pass a into b, vertical
pass b into a, with the Gaussian kernel stored in the state. -/
def bloom_blur_separable (fexp : ℚ → ℚ) (s : State) (bs : BloomSettings) :
    State :=
  let bw := s.bloom.w
  let bh := s.bloom.h
  if bw = 0 ∨ bh = 0 then s
  else
    let kr := build_gaussian_kernel fexp bs.sigma
    let K := kr.1
    let R := kr.2
    let newb := (List.range bh).flatMap (fun y =>
      (List.range bw).flatMap (fun x =>
        let t := blur_tap s.bloom.a K R (fun k =>
          ((y * bw + (clampi ((x : ℤ) + k) 0 ((bw : ℤ) - 1)).toNat) * 3))
        [t.1, t.2.1, t.2.2]))
    let newa := (List.range bh).flatMap (fun y =>
      (List.range bw).flatMap (fun x =>
        let t := blur_tap newb K R (fun k =>
          (((clampi ((y : ℤ) + k) 0 ((bh : ℤ) - 1)).toNat * bw + x) * 3))
        [t.1, t.2.1, t.2.2]))
    let bb := { s.bloom with kernel := K, radius := R, b := newb, a := newa }
    { s with bloom := bb }

/-- Engine.cpp `bloom_sample_bilinear`: edge-clamped bilinear fetch from the
blurred low-resolution buffer `bloom.a`. -/
def bloom_sample_bilinear (s : State) (u v : ℚ) : ℚ × ℚ × ℚ :=
  let bw := s.bloom.w
  let bh := s.bloom.h
  if bw = 0 ∨ bh = 0 then (0, 0, 0)
  else
    let u' := clampf u 0 ((bw : ℚ) - 1)
    let v' := clampf v 0 ((bh : ℚ) - 1)
    let x0 : ℤ := ⌊u'⌋
    let y0 : ℤ := ⌊v'⌋
    let x1 := clampi (x0 + 1) 0 ((bw : ℤ) - 1)
    let y1 := clampi (y0 + 1) 0 ((bh : ℤ) - 1)
    let tx := u' - (x0 : ℚ)
    let ty := v' - (y0 : ℚ)
    let fetch := fun (x y : ℤ) =>
      let i := ((y * (bw : ℤ) + x) * 3).toNat
      (s.bloom.a.getD i 0, s.bloom.a.getD (i+1) 0, s.bloom.a.getD (i+2) 0)
    let f00 := fetch x0 y0
    let f10 := fetch x1 y0
    let f01 := fetch x0 y1
    let f11 := fetch x1 y1
    let r0 := f00.1 * (1 - tx) + f10.1 * tx
    let g0 := f00.2.1 * (1 - tx) + f10.2.1 * tx
    let b0 := f00.2.2 * (1 - tx) + f10.2.2 * tx
    let r1 := f01.1 * (1 - tx) + f11.1 * tx
    let g1 := f01.2.1 * (1 - tx) + f11.2.1 * tx
    let b1 := f01.2.2 * (1 - tx) + f11.2.2 * tx
    (r0 * (1 - ty) + r1 * ty, g0 * (1 - ty) + g1 * ty, b0 * (1 - ty) + b1 * ty)

/-- The four output bytes of one post-processed pixel: base color, optional
bloom add, optional tone mapping, alpha forced to 255. -/
def postprocess_pixel (fexp : ℚ → ℚ) (fpow : ℚ → ℚ → ℚ) (s1 : State)
    (base : List ℕ) (bloom_on tone_on : Bool) (exposure invGamma : ℚ)
    (ds : ℕ) (intensity : ℚ) (x y : ℕ) : List ℕ :=
  let i := idx_rgba (s1.fb_w) (x : ℤ) (y : ℤ)
  let r0 : ℚ := (base.getD i 0 : ℚ) / 255
  let g0 : ℚ := (base.getD (i+1) 0 : ℚ) / 255
  let b0 : ℚ := (base.getD (i+2) 0 : ℚ) / 255
  let withBloom :=
    if bloom_on then
      let bu := ((x : ℚ) + 1/2) / (ds : ℚ) - 1/2
      let bv := ((y : ℚ) + 1/2) / (ds : ℚ) - 1/2
      let t := bloom_sample_bilinear s1 bu bv
      (r0 + t.1 * intensity, g0 + t.2.1 * intensity, b0 + t.2.2 * intensity)
    else (r0, g0, b0)
  let toned :=
    if tone_on then
      let r := 1 - fexp (-(withBloom.1) * exposure)
      let g := 1 - fexp (-(withBloom.2.1) * exposure)
      let b := 1 - fexp (-(withBloom.2.2) * exposure)
      (fpow (clampf r 0 1) invGamma, fpow (clampf g 0 1) invGamma,
       fpow (clampf b 0 1) invGamma)
    else withBloom
  [to_u8 toned.1, to_u8 toned.2.1, to_u8 toned.2.2, 255]

/-- Engine.cpp `build_postprocess_output`: returns the bytes handed to the
presenter or encoder, together with the updated state.  Pass-through when
post-processing is not applied or both stages are disabled; otherwise runs
the bloom pipeline and fills `post_out` (whole frame marked dirty-reset). -/
def build_postprocess_output (fexp : ℚ → ℚ) (fpow : ℚ → ℚ → ℚ) (s : State)
    (apply_post : Bool) : List ℕ × State :=
  if ¬ apply_post then (s.color, s)
  else
    let bloom_on := s.post.bloom.enabled
    let tone_on := s.post.tone.enabled
    if ¬ bloom_on ∧ ¬ tone_on then (s.color, s)
    else
      let s1 := if bloom_on then
          bloom_blur_separable fexp (bloom_brightpass_downsample s s.post.bloom)
            s.post.bloom
        else s
      let exposure := fmax (1/10000) s.post.tone.exposure
      let gamma := fmax (1/10) s.post.tone.gamma
      let invGamma := 1 / gamma
      let ds := (imax 2 s.post.bloom.downsample).toNat
      let intensity := s.post.bloom.intensity
      let out := (List.range s.fb_h).flatMap (fun y =>
        (List.range s.fb_w).flatMap (fun x =>
          postprocess_pixel fexp fpow s1 s.color bloom_on tone_on exposure
            invGamma ds intensity x y))
      (out, { s1 with post_out := out, dirty_empty := true })

/-- Engine.cpp `resize_framebuffer`: clamp the requested size to at least
1x1, reallocate the color buffer zero-filled and then set every pixel's
alpha byte to 255, reallocate the depth buffer to 1.0 when depth is on,
drop the post-process output and bloom scratch, and reset dirty. -/
def resize_framebuffer (s : State) (new_w new_h : ℤ) : State :=
  let w := (imax 1 new_w).toNat
  let h := (imax 1 new_h).toNat
  let base := List.replicate (w * h * 4) 0
  let color := (List.range h).foldl (fun cy y =>
    (List.range w).foldl (fun cx x =>
      cx.set (idx_rgba w (x : ℤ) (y : ℤ) + 3) 255) cy) base
  { s with fb_w := w, fb_h := h, color := color,
           depth := if s.depth_on then List.replicate (w * h) 1 else s.depth,
           post_out := [],
           bloom := ⟨0, 0, [], [], [], 0⟩,
           dirty_empty := true }

/-- A small concrete 2x2 surface (no clip, no depth, Overwrite blend) used
by witness theorems. -/
def wstate : State where
  fb_w := 2
  fb_h := 2
  color := [10, 20, 30, 40, 50, 60, 70, 80, 90, 100, 110, 120, 130, 140, 150, 160]
  depth_on := false
  depth := []
  clip_on := false
  clip_x := 0
  clip_y := 0
  clip_w := 0
  clip_h := 0
  blend := .Overwrite
  dirty_on := true
  dirty_empty := true
  dirty_minx := 0
  dirty_miny := 0
  dirty_maxx := 0
  dirty_maxy := 0
  post := ⟨⟨true, 1, 1, 4, 0⟩, ⟨false, 1, 1⟩⟩
  post_out := []
  bloom := ⟨0, 0, [], [], [], 0⟩

/-- The concrete surface with depth testing enabled and a cleared (1.0)
depth buffer, used by depth-test witnesses. -/
def wstateD : State :=
  { wstate with depth_on := true, depth := [1, 1, 1, 1] }

/-- C10: for every coordinate outside the framebuffer, get_pixel returns
the default-constructed color, opaque black (0,0,0,255); being a pure read,
it modifies no state. -/
theorem get_pixel_out_of_bounds_default (s : State) (x y : ℤ)
    (h : ¬ in_bounds s x y) : get_pixel s x y = ⟨0, 0, 0, 255⟩ := by
  simp [get_pixel, h]

/-- Witness for C10 at the concrete coordinate (-1, 0). -/
theorem get_pixel_out_of_bounds_default_witness :
    get_pixel wstate (-1) 0 = ⟨0, 0, 0, 255⟩ :=
  get_pixel_out_of_bounds_default wstate (-1) 0 (by decide)

/-- C8: with depth testing enabled, at an in-bounds unclipped pixel, a NaN
depth value makes depth_test_write return false and leave the whole state
(in particular the stored depth at the pixel) unchanged. -/
theorem depth_test_write_nan_rejected (s : State) (x y : ℤ)
    (hd : s.depth_on = true) (hb : in_bounds s x y)
    (hc : in_clip s x y = true) :
    depth_test_write s x y .nan = (false, s) := by
  simp [depth_test_write, hd, hb, hc, FVal.isNaN]

/-- Witness for C8 at pixel (0,0) of the depth-enabled concrete surface. -/
theorem depth_test_write_nan_rejected_witness :
    depth_test_write wstateD 0 0 .nan = (false, wstateD) :=
  depth_test_write_nan_rejected wstateD 0 0 rfl (by decide) rfl

/-- C5: when both bloom and tone mapping are disabled, the post-processing
step returns the raw color buffer itself and leaves the state untouched
(no color, scratch, or dirty mutation), for any exp/pow realization. -/
theorem postprocess_disabled_passthrough (fexp : ℚ → ℚ) (fpow : ℚ → ℚ → ℚ)
    (s : State) (hb : s.post.bloom.enabled = false)
    (ht : s.post.tone.enabled = false) :
    build_postprocess_output fexp fpow s true = (s.color, s) := by
  simp [build_postprocess_output, hb, ht]

/-- Witness for C5 on the concrete surface with both stages disabled. -/
theorem postprocess_disabled_passthrough_witness :
    build_postprocess_output (fun q => q) (fun q _ => q)
      { wstate with post := ⟨⟨false, 1, 1, 4, 0⟩, ⟨false, 1, 1⟩⟩ } true =
    ({ wstate with post := ⟨⟨false, 1, 1, 4, 0⟩, ⟨false, 1, 1⟩⟩ }.color,
     { wstate with post := ⟨⟨false, 1, 1, 4, 0⟩, ⟨false, 1, 1⟩⟩ }) :=
  postprocess_disabled_passthrough _ _ _ rfl rfl

/-- C6: each of the four triangle rasterizers (flat, gradient, textured,
projected 3D) returns with the state — color, depth and dirty region —
completely unchanged when the triangle's edge-function area is below the
1e-8 degeneracy threshold in absolute value. -/
theorem degenerate_triangles_skipped (s : State) :
    (∀ a b c col, |edge_fn a b c| < degenerate_eps →
      draw_tri_flat s a b c col = s) ∧
    (∀ a ca b cb c cc, |edge_fn a b c| < degenerate_eps →
      draw_tri_grad s a ca b cb c cc = s) ∧
    (∀ a ua b ub c uc tex tint, |edge_fn a b c| < degenerate_eps →
      draw_tri_tex s a ua b ub c uc tex tint = s) ∧
    (∀ va vb vc tex dt,
      |edge_fn ⟨va.x, va.y⟩ ⟨vb.x, vb.y⟩ ⟨vc.x, vc.y⟩| < degenerate_eps →
      draw_tri_3d s va vb vc tex dt = s) := by
  refine ⟨?_, ?_, ?_, ?_⟩
  · intro a b c col h
    simp only [draw_tri_flat]
    rw [if_pos (by rwa [fabs_eq_abs])]
  · intro a ca b cb c cc h
    simp only [draw_tri_grad]
    rw [if_pos (by rwa [fabs_eq_abs])]
  · intro a ua b ub c uc tex tint h
    simp only [draw_tri_tex]
    by_cases hv : tex.valid
    · rw [if_neg (by simp [hv]), if_pos (by rwa [fabs_eq_abs])]
    · rw [if_pos (by simp [hv])]
  · intro va vb vc tex dt h
    simp only [draw_tri_3d]
    rw [if_pos (by rwa [fabs_eq_abs])]

/-- Witness for C6: a zero-area (collinear) triangle leaves the concrete
surface unchanged through all four rasterizers. -/
theorem degenerate_triangles_skipped_witness :
    draw_tri_flat wstate ⟨0, 0⟩ ⟨1, 1⟩ ⟨2, 2⟩ ⟨255, 0, 0, 255⟩ = wstate ∧
    draw_tri_grad wstate ⟨0, 0⟩ ⟨255, 0, 0, 255⟩ ⟨1, 1⟩ ⟨0, 255, 0, 255⟩
      ⟨2, 2⟩ ⟨0, 0, 255, 255⟩ = wstate ∧
    draw_tri_tex wstate ⟨0, 0⟩ ⟨0, 0⟩ ⟨1, 1⟩ ⟨0, 1⟩ ⟨2, 2⟩ ⟨1, 1⟩
      ⟨1, 1, [9, 9, 9, 9]⟩ ⟨255, 255, 255, 255⟩ = wstate ∧
    draw_tri_3d wstate ⟨0, 0, 0, 1, ⟨1, 1, 1⟩, ⟨0, 0⟩⟩
      ⟨1, 1, 0, 1, ⟨1, 1, 1⟩, ⟨0, 0⟩⟩ ⟨2, 2, 0, 1, ⟨1, 1, 1⟩, ⟨0, 0⟩⟩
      none true = wstate :=
  ⟨(degenerate_triangles_skipped wstate).1 _ _ _ _
     (by norm_num [edge_fn, degenerate_eps]),
   (degenerate_triangles_skipped wstate).2.1 _ _ _ _ _ _
     (by norm_num [edge_fn, degenerate_eps]),
   (degenerate_triangles_skipped wstate).2.2.1 _ _ _ _ _ _ _ _
     (by norm_num [edge_fn, degenerate_eps]),
   (degenerate_triangles_skipped wstate).2.2.2 _ _ _ _ _
     (by norm_num [edge_fn, degenerate_eps])⟩

/-- C1 counterexample: the claim says depth_test_write returns false when
depth testing is off, but with depth testing off it returns true at the
concrete in-bounds pixel (0,0) with z = 0. -/
theorem depth_test_off_returns_true_cex :
    wstate.depth_on = false ∧
    (depth_test_write wstate 0 0 (.val 0)).1 = true :=
  ⟨rfl, rfl⟩

/-- C1 (amended): depth_test_write returns true leaving the state unchanged
when depth testing is off; returns false unchanged when out of bounds,
outside the clip rectangle, or z is NaN; otherwise it compares z to the
stored depth at (x,y), storing z and returning true exactly when z is
smaller, else returning false with the stored depth unchanged. -/
theorem depth_test_write_characterization (s : State) (x y : ℤ) (z : FVal) :
    (s.depth_on = false → depth_test_write s x y z = (true, s)) ∧
    (s.depth_on = true → ¬ in_bounds s x y →
      depth_test_write s x y z = (false, s)) ∧
    (s.depth_on = true → in_bounds s x y → in_clip s x y = false →
      depth_test_write s x y z = (false, s)) ∧
    (s.depth_on = true → in_bounds s x y → in_clip s x y = true →
      depth_test_write s x y .nan = (false, s)) ∧
    (∀ q, s.depth_on = true → in_bounds s x y → in_clip s x y = true →
      q < s.depth.getD (y * (s.fb_w : ℤ) + x).toNat 0 →
      depth_test_write s x y (.val q) =
        (true, { s with depth := s.depth.set (y * (s.fb_w : ℤ) + x).toNat q })) ∧
    (∀ q, s.depth_on = true → in_bounds s x y → in_clip s x y = true →
      ¬ q < s.depth.getD (y * (s.fb_w : ℤ) + x).toNat 0 →
      depth_test_write s x y (.val q) = (false, s)) := by
  refine ⟨?_, ?_, ?_, ?_, ?_, ?_⟩
  · intro hd
    simp [depth_test_write, hd]
  · intro hd hb
    simp [depth_test_write, hd, hb]
  · intro hd hb hc
    simp [depth_test_write, hd, hb, hc]
  · intro hd hb hc
    simp [depth_test_write, hd, hb, hc, FVal.isNaN]
  · intro q hd hb hc hlt
    simp [depth_test_write, hd, hb, hc, FVal.isNaN, hlt]
    rwa [← List.getD_eq_getElem?_getD]
  · intro q hd hb hc hge
    simp [depth_test_write, hd, hb, hc, FVal.isNaN, hge]
    exact le_of_not_lt (by rwa [List.getD_eq_getElem?_getD] at hge)

/-- Witness for C1's amended theorem: at the concrete depth-enabled surface
a depth of 1/2 passes against the stored 1.0. -/
theorem depth_test_write_characterization_witness :
    (depth_test_write wstateD 0 0 (.val (1/2))).1 = true := by
  have h := (depth_test_write_characterization wstateD 0 0 (.val (1/2))).2.2.2.2.1
    (1/2) rfl (by decide) rfl (by norm_num [wstateD, wstate])
  rw [h]

theorem getD_set_self (l : List ℕ) (i : ℕ) (v : ℕ) (h : i < l.length) :
    (l.set i v).getD i 0 = v := by
  simp [List.getD_eq_getElem?_getD, List.getElem?_set_self h]

theorem getD_set_ne (l : List ℕ) (i j v : ℕ) (h : i ≠ j) :
    (l.set i v).getD j 0 = l.getD j 0 := by
  simp [List.getD_eq_getElem?_getD, List.getElem?_set_ne h]

theorem read_store_color_at (l : List ℕ) (i : ℕ) (c : Color)
    (h : i + 3 < l.length) :
    read_color_at (store_color_at l i c) i = c := by
  obtain ⟨r, g, b, a⟩ := c
  unfold read_color_at store_color_at
  simp only [Color.mk.injEq]
  refine ⟨?_, ?_, ?_, ?_⟩
  · rw [getD_set_ne _ _ _ _ (by omega), getD_set_ne _ _ _ _ (by omega),
        getD_set_ne _ _ _ _ (by omega)]
    exact getD_set_self _ _ _ (by omega)
  · rw [getD_set_ne _ _ _ _ (by omega), getD_set_ne _ _ _ _ (by omega)]
    exact getD_set_self _ _ _ (by simp only [List.length_set]; omega)
  · rw [getD_set_ne _ _ _ _ (by omega)]
    exact getD_set_self _ _ _ (by simp only [List.length_set]; omega)
  · exact getD_set_self _ _ _ (by simp only [List.length_set]; omega)

theorem idx_rgba_eq (w : ℕ) (x y : ℤ) (hx0 : 0 ≤ x) (hy0 : 0 ≤ y) :
    idx_rgba w x y = (y.toNat * w + x.toNat) * 4 := by
  unfold idx_rgba
  rw [← Int.toNat_of_nonneg hy0, ← Int.toNat_of_nonneg hx0]
  norm_cast

theorem idx_rgba_add_lt (s : State) (x y : ℤ) (hb : in_bounds s x y)
    (hl : s.color.length = s.fb_w * s.fb_h * 4) (k : ℕ) (hk : k < 4) :
    idx_rgba s.fb_w x y + k < s.color.length := by
  obtain ⟨hx0, hy0, hxw, hyh⟩ := hb
  have h1 : y.toNat * s.fb_w + x.toNat + 1 ≤ s.fb_h * s.fb_w := by
    calc y.toNat * s.fb_w + x.toNat + 1 ≤ y.toNat * s.fb_w + s.fb_w := by omega
      _ = (y.toNat + 1) * s.fb_w := by ring
      _ ≤ s.fb_h * s.fb_w := Nat.mul_le_mul_right _ (by omega)
  rw [idx_rgba_eq _ _ _ hx0 hy0, hl]
  calc (y.toNat * s.fb_w + x.toNat) * 4 + k
      < (y.toNat * s.fb_w + x.toNat + 1) * 4 := by omega
    _ ≤ s.fb_h * s.fb_w * 4 := Nat.mul_le_mul_right _ h1
    _ = s.fb_w * s.fb_h * 4 := by ring

theorem dirty_add_color (s : State) (u v : ℤ) :
    (dirty_add s u v).color = s.color := by
  unfold dirty_add; split_ifs <;> rfl

theorem dirty_add_fb_w (s : State) (u v : ℤ) :
    (dirty_add s u v).fb_w = s.fb_w := by
  unfold dirty_add; split_ifs <;> rfl

theorem dirty_add_fb_h (s : State) (u v : ℤ) :
    (dirty_add s u v).fb_h = s.fb_h := by
  unfold dirty_add; split_ifs <;> rfl

/-- At an in-bounds pixel, get_pixel is exactly the stored four bytes. -/
theorem get_pixel_in_bounds (s : State) (x y : ℤ) (hb : in_bounds s x y) :
    get_pixel s x y = read_color_at s.color (idx_rgba s.fb_w x y) := by
  unfold get_pixel
  rw [if_neg (not_not_intro hb)]

/-- The write/read contract of write_pixel: at an in-bounds, unclipped
pixel of a well-sized buffer, a write followed by a read returns exactly
the blend of the source with the previously stored destination. -/
theorem get_pixel_dirty_add_set_color (s : State) (l : List ℕ) (x y u v : ℤ)
    (hb : in_bounds s x y) :
    get_pixel (dirty_add { s with color := l } u v) x y =
      read_color_at l (idx_rgba s.fb_w x y) := by
  have hb' : in_bounds (dirty_add { s with color := l } u v) x y := by
    unfold in_bounds at hb ⊢
    rw [dirty_add_fb_w, dirty_add_fb_h]
    exact hb
  unfold get_pixel
  rw [if_neg (not_not_intro hb'), dirty_add_color, dirty_add_fb_w]

/-- The write/read contract of write_pixel: at an in-bounds, unclipped
pixel of a well-sized buffer, a write followed by a read returns exactly
the blend of the source with the previously stored destination. -/
theorem write_pixel_then_get (s : State) (x y : ℤ) (src : Color)
    (hb : in_bounds s x y) (hc : in_clip s x y = true)
    (hl : s.color.length = s.fb_w * s.fb_h * 4) :
    get_pixel (write_pixel s x y src) x y =
      blend_color s.blend src (get_pixel s x y) := by
  unfold write_pixel
  rw [if_neg (not_not_intro hb)]
  rw [if_neg (by simp [hc])]
  rw [get_pixel_dirty_add_set_color s _ x y x y hb]
  rw [get_pixel_in_bounds s x y hb]
  exact read_store_color_at _ _ _ (idx_rgba_add_lt s x y hb hl 3 (by omega))

/-- C2: with Overwrite blending, writing a color at an in-bounds unclipped
pixel and immediately reading it back returns exactly that color in all
four channels. -/
theorem overwrite_write_then_read (s : State) (x y : ℤ) (c : Color)
    (hb : in_bounds s x y) (hc : in_clip s x y = true)
    (hm : s.blend = .Overwrite)
    (hl : s.color.length = s.fb_w * s.fb_h * 4) :
    get_pixel (write_pixel s x y c) x y = c := by
  rw [write_pixel_then_get s x y c hb hc hl, hm]
  rfl

/-- Witness for C2 at pixel (1,0) of the concrete surface. -/
theorem overwrite_write_then_read_witness :
    get_pixel (write_pixel wstate 1 0 ⟨1, 2, 3, 4⟩) 1 0 = ⟨1, 2, 3, 4⟩ :=
  overwrite_write_then_read wstate 1 0 ⟨1, 2, 3, 4⟩ (by decide) rfl rfl rfl

theorem clampi_add_toNat (a b : ℕ) :
    (clampi ((a : ℤ) + (b : ℤ)) 0 255).toNat = min (a + b) 255 := by
  unfold clampi imax imin
  split_ifs <;> omega

/-- C9: with an in-bounds, unclipped pixel holding destination d, Additive
blending stores channel-wise min(d.c + src.c, 255) with alpha forced to
255, and Multiply blending stores channel-wise d.c * src.c / 255 (integer
division) with alpha forced to 255. -/
theorem additive_multiply_blend_formulas (s : State) (x y : ℤ) (src : Color)
    (hb : in_bounds s x y) (hc : in_clip s x y = true)
    (hl : s.color.length = s.fb_w * s.fb_h * 4) :
    (s.blend = .Additive →
      get_pixel (write_pixel s x y src) x y =
        ⟨min ((get_pixel s x y).r + src.r) 255,
         min ((get_pixel s x y).g + src.g) 255,
         min ((get_pixel s x y).b + src.b) 255, 255⟩) ∧
    (s.blend = .Multiply →
      get_pixel (write_pixel s x y src) x y =
        ⟨(get_pixel s x y).r * src.r / 255,
         (get_pixel s x y).g * src.g / 255,
         (get_pixel s x y).b * src.b / 255, 255⟩) := by
  constructor
  · intro hm
    rw [write_pixel_then_get s x y src hb hc hl, hm]
    simp [blend_color, clampi_add_toNat]
  · intro hm
    rw [write_pixel_then_get s x y src hb hc hl, hm]
    simp [blend_color]

/-- Witness for C9 at pixel (0,0): 200 + 200 saturates to 255 under
Additive; 100 * 510 / 255 = 200 under Multiply. -/
theorem additive_multiply_blend_formulas_witness :
    get_pixel (write_pixel { wstate with blend := .Additive } 0 0
      ⟨250, 1, 2, 7⟩) 0 0 =
      ⟨min (10 + 250) 255, min (20 + 1) 255, min (30 + 2) 255, 255⟩ :=
  (additive_multiply_blend_formulas { wstate with blend := .Additive } 0 0
    ⟨250, 1, 2, 7⟩ (by decide) rfl rfl).1 rfl

theorem triples_append : ∀ (pre l : List ℕ), pre.length % 3 = 0 →
    triples (pre ++ l) = triples pre ++ triples l
  | [], l, _ => by simp [triples]
  | [a], l, h => by simp at h
  | [a, b], l, h => by simp at h
  | a :: b :: c :: rest, l, h => by
    have h' : rest.length % 3 = 0 := by
      simp only [List.length_cons] at h
      omega
    simp only [List.cons_append, triples, List.append_eq,
      triples_append rest l h']

theorem mesh_tri_step_skip (proj : List (Option VOut)) (tex : Option Image)
    (dt : Bool) (s : State) (t : ℕ × ℕ × ℕ)
    (h : proj.length ≤ t.1 ∨ proj.length ≤ t.2.1 ∨ proj.length ≤ t.2.2) :
    mesh_tri_step proj tex dt s t = s := by
  unfold mesh_tri_step
  rw [if_pos h]

/-- C7: draw_mesh returns with the state unchanged when the index count is
not a multiple of three; and an aligned index triple containing any index
out of vertex range is skipped on its own, leaving the result identical to
the draw without that triple (all other triangles still rasterized). -/
theorem draw_mesh_index_robustness (s : State) (verts : List Vertex3D)
    (mvp : Mat4) (tex : Option Image) (dt : Bool) :
    (∀ indices : List ℕ, indices.length % 3 ≠ 0 →
      draw_mesh s verts indices mvp tex dt = s) ∧
    (∀ (pre post : List ℕ) (ia ib ic : ℕ),
      pre.length % 3 = 0 → post.length % 3 = 0 →
      (verts.length ≤ ia ∨ verts.length ≤ ib ∨ verts.length ≤ ic) →
      draw_mesh s verts (pre ++ ia :: ib :: ic :: post) mvp tex dt =
      draw_mesh s verts (pre ++ post) mvp tex dt) := by
  constructor
  · intro indices h
    by_cases hv : verts.length = 0 ∨ indices.length = 0
    · unfold draw_mesh
      rw [if_pos hv]
    · unfold draw_mesh
      rw [if_neg hv, if_pos h]
  · intro pre post ia ib ic hpre hpost hbad
    by_cases hv : verts.length = 0
    · unfold draw_mesh
      rw [if_pos (Or.inl hv), if_pos (Or.inl hv)]
    · have hbad' : (verts.map (fun v => project_vertex s v mvp)).length ≤ ia ∨
          (verts.map (fun v => project_vertex s v mvp)).length ≤ ib ∨
          (verts.map (fun v => project_vertex s v mvp)).length ≤ ic := by
        simpa [List.length_map] using hbad
      have hlen1 : (pre ++ ia :: ib :: ic :: post).length % 3 = 0 := by
        simp only [List.length_append, List.length_cons]
        omega
      have L : draw_mesh s verts (pre ++ ia :: ib :: ic :: post) mvp tex dt =
          (triples (pre ++ ia :: ib :: ic :: post)).foldl
            (mesh_tri_step (verts.map (fun v => project_vertex s v mvp)) tex dt)
            s := by
        unfold draw_mesh
        rw [if_neg (not_or.mpr ⟨hv, by simp⟩), if_neg (not_not_intro hlen1)]
      rw [L, triples_append pre _ hpre]
      simp only [triples]
      rw [List.foldl_append, List.foldl_cons, mesh_tri_step_skip _ _ _ _ _ hbad']
      by_cases hpp : (pre ++ post).length = 0
      · have hp0 : pre.length = 0 ∧ post.length = 0 := by
          simpa using hpp
        have hpre0 : pre = [] := List.length_eq_zero.mp hp0.1
        have hpost0 : post = [] := List.length_eq_zero.mp hp0.2
        subst hpre0; subst hpost0
        simp only [List.nil_append, triples, List.foldl_nil]
        unfold draw_mesh
        rw [if_pos (Or.inr List.length_nil)]
      · have hlen2 : (pre ++ post).length % 3 = 0 := by
          simp only [List.length_append]
          omega
        have R : draw_mesh s verts (pre ++ post) mvp tex dt =
            (triples (pre ++ post)).foldl
              (mesh_tri_step (verts.map (fun v => project_vertex s v mvp)) tex
                dt) s := by
          unfold draw_mesh
          rw [if_neg (not_or.mpr ⟨hv, hpp⟩), if_neg (not_not_intro hlen2)]
        rw [R, triples_append pre post hpre, List.foldl_append]

/-- Witness for C7: an index list of length four is rejected outright, and
a leading triple with index 9 out of range for one vertex is skipped,
leaving the draw equal to the draw of the remaining (empty) list. -/
theorem draw_mesh_index_robustness_witness :
    draw_mesh wstate [⟨⟨0, 0, 0⟩, ⟨1, 1, 1⟩, ⟨0, 0⟩⟩] [0, 0, 0, 0]
      ⟨[1, 0, 0, 0, 0, 1, 0, 0, 0, 0, 1, 0, 0, 0, 0, 1]⟩ none true = wstate ∧
    draw_mesh wstate [⟨⟨0, 0, 0⟩, ⟨1, 1, 1⟩, ⟨0, 0⟩⟩] [9, 0, 0]
      ⟨[1, 0, 0, 0, 0, 1, 0, 0, 0, 0, 1, 0, 0, 0, 0, 1]⟩ none true =
    draw_mesh wstate [⟨⟨0, 0, 0⟩, ⟨1, 1, 1⟩, ⟨0, 0⟩⟩] []
      ⟨[1, 0, 0, 0, 0, 1, 0, 0, 0, 0, 1, 0, 0, 0, 0, 1]⟩ none true :=
  ⟨(draw_mesh_index_robustness wstate _ _ none true).1 [0, 0, 0, 0] (by decide),
   by
    have h := (draw_mesh_index_robustness wstate
      [⟨⟨0, 0, 0⟩, ⟨1, 1, 1⟩, ⟨0, 0⟩⟩]
      ⟨[1, 0, 0, 0, 0, 1, 0, 0, 0, 0, 1, 0, 0, 0, 0, 1]⟩ none true).2
      [] [] 9 0 0 rfl rfl (Or.inl (by decide))
    simpa using h⟩

theorem foldl_flatMap_eq {α β γ : Type} (l : List α) (f : α → List β)
    (g : γ → β → γ) (init : γ) :
    (l.flatMap f).foldl g init =
      l.foldl (fun acc a => (f a).foldl g acc) init := by
  induction l generalizing init with
  | nil => rfl
  | cons a l ih => simp [List.flatMap_cons, List.foldl_append, ih]

theorem getD_foldl_set {α : Type} (f : α → ℕ) (v : ℕ) (L : List α)
    (init : List ℕ) (j : ℕ) :
    (L.foldl (fun acc a => acc.set (f a) v) init).getD j 0 =
      if (∃ a ∈ L, f a = j) ∧ j < init.length then v
      else init.getD j 0 := by
  induction L generalizing init with
  | nil => simp
  | cons a L ih =>
    rw [List.foldl_cons, ih, List.length_set]
    split_ifs with h1 h2 h2
    · rfl
    · obtain ⟨⟨b, hb, hfb⟩, hj⟩ := h1
      exact absurd ⟨⟨b, List.mem_cons_of_mem a hb, hfb⟩, hj⟩ h2
    · obtain ⟨⟨b, hb, hfb⟩, hj⟩ := h2
      rcases List.mem_cons.mp hb with hba | hbL
      · subst hba
        have hlt : f b < init.length := by rw [hfb]; exact hj
        rw [← hfb]
        exact getD_set_self init _ v hlt
      · exact absurd ⟨⟨b, hbL, hfb⟩, hj⟩ h1
    · by_cases hfa : f a = j
      · have hj : ¬ j < init.length := fun hj =>
          h2 ⟨⟨a, List.mem_cons_self a L, hfa⟩, hj⟩
        rw [← hfa, List.set_eq_of_length_le (by omega)]
      · exact getD_set_ne init _ _ v hfa

theorem length_foldl_set {α : Type} (f : α → ℕ) (v : ℕ) (L : List α)
    (init : List ℕ) :
    (L.foldl (fun acc a => acc.set (f a) v) init).length = init.length := by
  induction L generalizing init with
  | nil => rfl
  | cons a L ih => rw [List.foldl_cons, ih, List.length_set]

theorem idx_rgba_natCast (w : ℕ) (x y : ℕ) :
    idx_rgba w (x : ℤ) (y : ℤ) = (y * w + x) * 4 := by
  unfold idx_rgba
  norm_cast

theorem idx_rgba_add_lt_of_lt (w h x y k : ℕ) (hx : x < w) (hy : y < h)
    (hk : k < 4) : idx_rgba w (x : ℤ) (y : ℤ) + k < w * h * 4 := by
  rw [idx_rgba_natCast]
  have h1 : y * w + x + 1 ≤ h * w := by
    calc y * w + x + 1 ≤ y * w + w := by omega
      _ = (y + 1) * w := by ring
      _ ≤ h * w := Nat.mul_le_mul_right _ (by omega)
  calc (y * w + x) * 4 + k < (y * w + x + 1) * 4 := by omega
    _ ≤ h * w * 4 := Nat.mul_le_mul_right _ h1
    _ = w * h * 4 := by ring

/-- The color buffer produced by resize_framebuffer, rewritten from the
nested alpha-setting loops to one fold over the flattened index list. -/
theorem resize_color_eq_flat_fold (s : State) (new_w new_h : ℤ) :
    (resize_framebuffer s new_w new_h).color =
      (((List.range (imax 1 new_h).toNat).flatMap (fun (y : ℕ) =>
          (List.range (imax 1 new_w).toNat).map (fun (x : ℕ) =>
            idx_rgba (imax 1 new_w).toNat (x : ℤ) (y : ℤ) + 3))).foldl
        (fun acc i => acc.set i 255)
        (List.replicate ((imax 1 new_w).toNat * (imax 1 new_h).toNat * 4) 0)) := by
  unfold resize_framebuffer
  rw [foldl_flatMap_eq]
  simp only [List.foldl_map]

/-- C4 counterexample: the claim quantifies over every pair of integers,
but resize_framebuffer(0,0) clamps to a 1x1 surface, so the color buffer
holds 4 bytes, not 0*0*4 = 0. -/
theorem resize_framebuffer_zero_cex :
    (resize_framebuffer wstate 0 0).color.length ≠ 0 * 0 * 4 := by decide

/-- C4 (amended): after resize_framebuffer(w,h) the dimensions are clamped
to at least 1; the color buffer's length is exactly max(1,w)*max(1,h)*4
bytes (hence w*h*4 whenever w,h are at least 1) and every pixel's alpha
byte equals 255. -/
theorem resize_framebuffer_size_alpha (s : State) (w h : ℤ) :
    (resize_framebuffer s w h).color.length =
      (imax 1 w).toNat * (imax 1 h).toNat * 4 ∧
    (∀ x y : ℕ, x < (imax 1 w).toNat → y < (imax 1 h).toNat →
      (resize_framebuffer s w h).color.getD
        (idx_rgba (imax 1 w).toNat (x : ℤ) (y : ℤ) + 3) 0 = 255) := by
  constructor
  · rw [resize_color_eq_flat_fold, length_foldl_set, List.length_replicate]
  · intro x y hx hy
    rw [resize_color_eq_flat_fold, getD_foldl_set]
    rw [if_pos]
    constructor
    · exact ⟨_, List.mem_flatMap.mpr ⟨y, List.mem_range.mpr hy,
        List.mem_map.mpr ⟨x, List.mem_range.mpr hx, rfl⟩⟩, rfl⟩
    · rw [List.length_replicate]
      exact idx_rgba_add_lt_of_lt _ _ _ _ _ hx hy (by omega)

/-- Witness for C4's amended theorem at the concrete call resize(3,2):
24 bytes, and the alpha byte of pixel (2,1) is 255. -/
theorem resize_framebuffer_size_alpha_witness :
    (resize_framebuffer wstate 3 2).color.length = (imax 1 3).toNat *
      (imax 1 2).toNat * 4 ∧
    (resize_framebuffer wstate 3 2).color.getD
      (idx_rgba (imax 1 3).toNat (2 : ℤ) (1 : ℤ) + 3) 0 = 255 :=
  ⟨(resize_framebuffer_size_alpha wstate 3 2).1,
   (resize_framebuffer_size_alpha wstate 3 2).2 2 1 (by decide) (by decide)⟩

theorem getD_replicate_zero (n i : ℕ) :
    (List.replicate n (0 : ℚ)).getD i 0 = 0 := by
  rw [List.getD_eq_getElem?_getD, List.getElem?_replicate]
  split_ifs <;> rfl

theorem byte_div_le_one (l : List ℕ) (hbytes : ∀ b ∈ l, b ≤ 255) (i : ℕ) :
    (l.getD i 0 : ℚ) / 255 ≤ 1 := by
  have hb : l.getD i 0 ≤ 255 := by
    rcases lt_or_le i l.length with h | h
    · rw [List.getD_eq_getElem _ _ h]
      exact hbytes _ (List.getElem_mem _)
    · rw [List.getD_eq_default _ _ h]
      omega
  rw [div_le_one (by norm_num)]
  exact_mod_cast hb

/-- At threshold 1, no pixel's luminance can strictly exceed the threshold
(the three coefficients sum to exactly 1 and each channel is at most 1),
so the brightpass accumulator only counts the pixel without contributing. -/
theorem brightpass_accum_thr_one (s : State)
    (hbytes : ∀ b ∈ s.color, b ≤ 255) (acc : ℚ × ℚ × ℚ × ℕ) (x y : ℕ) :
    brightpass_accum s 1 acc x y =
      (acc.1, acc.2.1, acc.2.2.1, acc.2.2.2 + 1) := by
  have h1 := byte_div_le_one s.color hbytes (idx_rgba s.fb_w (x : ℤ) (y : ℤ))
  have h2 := byte_div_le_one s.color hbytes (idx_rgba s.fb_w (x : ℤ) (y : ℤ) + 1)
  have h3 := byte_div_le_one s.color hbytes (idx_rgba s.fb_w (x : ℤ) (y : ℤ) + 2)
  simp only [brightpass_accum]
  rw [if_neg (by nlinarith [h1, h2, h3])]

theorem brightpass_fold_inner (s : State)
    (hbytes : ∀ b ∈ s.color, b ≤ 255) (x0 yy : ℕ) :
    ∀ (L : List ℕ) (acc : ℚ × ℚ × ℚ × ℕ),
    L.foldl (fun acc ox => brightpass_accum s 1 acc (x0 + ox) yy) acc =
      (acc.1, acc.2.1, acc.2.2.1, acc.2.2.2 + L.length)
  | [], acc => by simp
  | ox :: L, acc => by
    rw [List.foldl_cons, brightpass_accum_thr_one s hbytes,
      brightpass_fold_inner s hbytes x0 yy L]
    have h : acc.2.2.2 + 1 + L.length = acc.2.2.2 + (ox :: L).length := by
      simp only [List.length_cons]
      omega
    rw [h]

theorem brightpass_fold_thr_one (s : State)
    (hbytes : ∀ b ∈ s.color, b ≤ 255) (L2 : List ℕ) (x0 y0 : ℕ) :
    ∀ (L1 : List ℕ) (acc : ℚ × ℚ × ℚ × ℕ),
    L1.foldl (fun acc oy => L2.foldl
      (fun acc ox => brightpass_accum s 1 acc (x0 + ox) (y0 + oy)) acc) acc =
      (acc.1, acc.2.1, acc.2.2.1, acc.2.2.2 + L1.length * L2.length)
  | [], acc => by simp
  | oy :: L1, acc => by
    rw [List.foldl_cons, brightpass_fold_inner s hbytes x0 (y0 + oy) L2 acc,
      brightpass_fold_thr_one s hbytes L2 x0 y0 L1]
    have h : acc.2.2.2 + L2.length + L1.length * L2.length =
        acc.2.2.2 + (oy :: L1).length * L2.length := by
      simp only [List.length_cons]
      ring
    simp only []
    rw [h]

/-- At threshold 1 every brightpass block averages to exactly (0,0,0). -/
theorem brightpass_block_thr_one (s : State)
    (hbytes : ∀ b ∈ s.color, b ≤ 255) (ds bx by_ : ℕ) :
    brightpass_block s 1 ds bx by_ = [0, 0, 0] := by
  simp only [brightpass_block]
  rw [brightpass_fold_thr_one s hbytes]
  split_ifs <;> simp

theorem flatMap_const_replicate {α : Type} (L : List α) (m : ℕ) :
    L.flatMap (fun _ => List.replicate m (0 : ℚ)) =
      List.replicate (L.length * m) 0 := by
  induction L with
  | nil => simp
  | cons a L ih =>
    rw [List.flatMap_cons, ih]
    have h : (a :: L).length * m = m + L.length * m := by
      simp only [List.length_cons]
      ring
    rw [h, List.replicate_add]

theorem flatMap_const_three {α : Type} (L : List α) :
    L.flatMap (fun _ => [(0 : ℚ), 0, 0]) = List.replicate (L.length * 3) 0 := by
  have h : [(0 : ℚ), 0, 0] = List.replicate 3 0 := rfl
  simp only [h]
  exact flatMap_const_replicate L 3

theorem clampf_one_zero_one : clampf 1 0 1 = 1 := by
  norm_num [clampf, fmax, fmin]

theorem bloom_ensure_buffers_fb_w (s : State) (w h : ℕ) :
    (bloom_ensure_buffers s w h).fb_w = s.fb_w := by
  unfold bloom_ensure_buffers
  split_ifs <;> rfl

theorem bloom_ensure_buffers_fb_h (s : State) (w h : ℕ) :
    (bloom_ensure_buffers s w h).fb_h = s.fb_h := by
  unfold bloom_ensure_buffers
  split_ifs <;> rfl

theorem bloom_ensure_buffers_color (s : State) (w h : ℕ) :
    (bloom_ensure_buffers s w h).color = s.color := by
  unfold bloom_ensure_buffers
  split_ifs <;> rfl

theorem bloom_brightpass_fb_w (s : State) (bs : BloomSettings) :
    (bloom_brightpass_downsample s bs).fb_w = s.fb_w := by
  simp only [bloom_brightpass_downsample]
  exact bloom_ensure_buffers_fb_w s _ _

theorem bloom_brightpass_fb_h (s : State) (bs : BloomSettings) :
    (bloom_brightpass_downsample s bs).fb_h = s.fb_h := by
  simp only [bloom_brightpass_downsample]
  exact bloom_ensure_buffers_fb_h s _ _

theorem bloom_brightpass_color (s : State) (bs : BloomSettings) :
    (bloom_brightpass_downsample s bs).color = s.color := by
  simp only [bloom_brightpass_downsample]
  exact bloom_ensure_buffers_color s _ _

theorem bloom_blur_fb_w (fexp : ℚ → ℚ) (s : State) (bs : BloomSettings) :
    (bloom_blur_separable fexp s bs).fb_w = s.fb_w := by
  simp only [bloom_blur_separable]
  split_ifs <;> rfl

theorem bloom_blur_fb_h (fexp : ℚ → ℚ) (s : State) (bs : BloomSettings) :
    (bloom_blur_separable fexp s bs).fb_h = s.fb_h := by
  simp only [bloom_blur_separable]
  split_ifs <;> rfl

theorem bloom_blur_color (fexp : ℚ → ℚ) (s : State) (bs : BloomSettings) :
    (bloom_blur_separable fexp s bs).color = s.color := by
  simp only [bloom_blur_separable]
  split_ifs <;> rfl

/-- With threshold = 1 the whole brightpass output buffer is zero. -/
theorem bloom_brightpass_a_thr_one (s : State) (bs : BloomSettings)
    (hthr : bs.threshold = 1) (hbytes : ∀ b ∈ s.color, b ≤ 255) :
    ∃ n, (bloom_brightpass_downsample s bs).bloom.a = List.replicate n 0 := by
  simp only [bloom_brightpass_downsample, hthr, clampf_one_zero_one]
  simp only [brightpass_block_thr_one s hbytes]
  refine ⟨(List.range ((s.fb_h + (imax 2 bs.downsample).toNat - 1) /
    (imax 2 bs.downsample).toNat)).length *
    ((List.range ((s.fb_w + (imax 2 bs.downsample).toNat - 1) /
      (imax 2 bs.downsample).toNat)).length * 3), ?_⟩
  simp only [flatMap_const_three, flatMap_const_replicate]

theorem blur_tap_zero (n : ℕ) (K : List ℚ) (R : ℕ) (coord : ℤ → ℕ) :
    blur_tap (List.replicate n 0) K R coord = (0, 0, 0) := by
  unfold blur_tap
  generalize intRange (-(R : ℤ)) (R : ℤ) = L
  have h : ∀ (L : List ℤ) (acc : ℚ × ℚ × ℚ),
      L.foldl (fun (acc : ℚ × ℚ × ℚ) k =>
        (acc.1 + (List.replicate n (0:ℚ)).getD (coord k) 0 * K.getD (k + (R : ℤ)).toNat 0,
         acc.2.1 + (List.replicate n (0:ℚ)).getD (coord k + 1) 0 * K.getD (k + (R : ℤ)).toNat 0,
         acc.2.2 + (List.replicate n (0:ℚ)).getD (coord k + 2) 0 * K.getD (k + (R : ℤ)).toNat 0)) acc = acc := by
    intro L
    induction L with
    | nil => intro acc; rfl
    | cons k L ih =>
      intro acc
      rw [List.foldl_cons]
      simp [getD_replicate_zero, ih]
  exact h L (0, 0, 0)

/-- Blurring an all-zero low-resolution buffer leaves it all zero. -/
theorem bloom_blur_a_zero (fexp : ℚ → ℚ) (s : State) (bs : BloomSettings)
    (hz : ∃ n, s.bloom.a = List.replicate n 0) :
    ∃ m, (bloom_blur_separable fexp s bs).bloom.a = List.replicate m 0 := by
  obtain ⟨n, hn⟩ := hz
  simp only [bloom_blur_separable]
  split_ifs with h
  · exact ⟨n, hn⟩
  · refine ⟨(List.range s.bloom.h).length * ((List.range s.bloom.w).length * 3), ?_⟩
    simp only [hn, blur_tap_zero, flatMap_const_three, List.length_range,
      flatMap_const_replicate]

/-- Bilinearly sampling an all-zero buffer yields zero. -/
theorem bloom_sample_bilinear_zero (s : State)
    (hz : ∃ n, s.bloom.a = List.replicate n 0) (u v : ℚ) :
    bloom_sample_bilinear s u v = (0, 0, 0) := by
  obtain ⟨n, hn⟩ := hz
  simp only [bloom_sample_bilinear]
  split_ifs with h
  · rfl
  · simp [hn, getD_replicate_zero]

theorem clampf_eq_self (v : ℚ) (h0 : 0 ≤ v) (h1 : v ≤ 1) :
    clampf v 0 1 = v := by
  unfold clampf fmax fmin
  split_ifs <;> linarith

/-- Converting a byte to a 0..1 float and back through to_u8 is the
identity (exact in rational arithmetic). -/
theorem to_u8_div255 (c : ℕ) (hc : c ≤ 255) : to_u8 ((c : ℚ) / 255) = c := by
  unfold to_u8
  have h0 : (0 : ℚ) ≤ (c : ℚ) / 255 := by positivity
  have h1 : (c : ℚ) / 255 ≤ 1 := by
    rw [div_le_one (by norm_num)]
    exact_mod_cast hc
  rw [clampf_eq_self _ h0 h1, div_mul_cancel₀ _ (by norm_num)]
  unfold lroundQ
  rw [if_pos (by positivity)]
  have hfloor : ⌊(c : ℚ) + 1/2⌋ = (c : ℤ) := by
    rw [Int.floor_eq_iff]
    constructor
    · push_cast
      linarith
    · push_cast
      linarith
  rw [hfloor]
  unfold clampi imax imin
  split_ifs with ha hb hb <;> omega

/-- With bloom sampling to zero and tone mapping off, a post-processed
pixel is its base color bytes with alpha forced to 255. -/
theorem postprocess_pixel_zero_bloom (fexp : ℚ → ℚ) (fpow : ℚ → ℚ → ℚ)
    (s1 : State) (base : List ℕ) (hz : ∃ n, s1.bloom.a = List.replicate n 0)
    (hbytes : ∀ b ∈ base, b ≤ 255) (exposure invGamma intensity : ℚ)
    (ds x y : ℕ) :
    postprocess_pixel fexp fpow s1 base true false exposure invGamma ds
      intensity x y =
      [base.getD (idx_rgba s1.fb_w (x : ℤ) (y : ℤ)) 0,
       base.getD (idx_rgba s1.fb_w (x : ℤ) (y : ℤ) + 1) 0,
       base.getD (idx_rgba s1.fb_w (x : ℤ) (y : ℤ) + 2) 0, 255] := by
  have hble : ∀ i, base.getD i 0 ≤ 255 := by
    intro i
    rcases lt_or_le i base.length with h | h
    · rw [List.getD_eq_getElem _ _ h]
      exact hbytes _ (List.getElem_mem _)
    · rw [List.getD_eq_default _ _ h]
      omega
  simp only [postprocess_pixel, bloom_sample_bilinear_zero s1 hz,
    Bool.false_eq_true, if_false, if_true]
  norm_num
  simp only [← List.getD_eq_getElem?_getD]
  exact ⟨to_u8_div255 _ (hble _), to_u8_div255 _ (hble _), to_u8_div255 _ (hble _)⟩

theorem length_flatMap_uniform {α : Type} (f : α → List ℕ) (m : ℕ) :
    ∀ (L : List α), (∀ a ∈ L, (f a).length = m) →
      (L.flatMap f).length = L.length * m
  | [], _ => by simp
  | a :: L, hl => by
    rw [List.flatMap_cons, List.length_append,
      hl a (List.mem_cons_self a L),
      length_flatMap_uniform f m L (fun b hb => hl b (List.mem_cons_of_mem a hb))]
    simp only [List.length_cons]
    ring

theorem getD_flatMap_uniform (f : ℕ → List ℕ) (m d : ℕ) :
    ∀ (L : List ℕ) (k r : ℕ), (∀ a ∈ L, (f a).length = m) → r < m →
      k < L.length →
      (L.flatMap f).getD (k * m + r) d = (f (L.getD k 0)).getD r d
  | [], k, r, _, _, hk => by simp at hk
  | a :: L, 0, r, hl, hr, _ => by
    simp only [List.flatMap_cons, Nat.zero_mul, Nat.zero_add,
      List.getD_cons_zero]
    rw [List.getD_append]
    rw [hl a (List.mem_cons_self a L)]
    exact hr
  | a :: L, k+1, r, hl, hr, hk => by
    simp only [List.flatMap_cons, List.getD_cons_succ]
    rw [List.getD_append_right _ _ _ _ (by
      rw [hl a (List.mem_cons_self a L)]
      calc m ≤ (k+1) * m := by nlinarith
        _ ≤ (k+1) * m + r := by omega)]
    rw [hl a (List.mem_cons_self a L)]
    have harith : (k + 1) * m + r - m = k * m + r := by
      have : (k + 1) * m = k * m + m := by ring
      omega
    rw [harith]
    exact getD_flatMap_uniform f m d L k r
      (fun b hb => hl b (List.mem_cons_of_mem a hb)) hr (by
        simpa using hk)

theorem getD_range (n k : ℕ) (hk : k < n) : (List.range n).getD k 0 = k := by
  rw [List.getD_eq_getElem _ _ (by simpa using hk)]
  exact List.getElem_range _ _

/-- With bloom enabled and tone disabled, the post-process output bytes are
the row-major concatenation of per-pixel results computed against the
blurred brightpass state. -/
theorem postprocess_out_bytes_unfold (fexp : ℚ → ℚ) (fpow : ℚ → ℚ → ℚ)
    (s : State) (hben : s.post.bloom.enabled = true)
    (hton : s.post.tone.enabled = false) :
    (build_postprocess_output fexp fpow s true).1 =
      (List.range s.fb_h).flatMap (fun yy =>
        (List.range s.fb_w).flatMap (fun xx =>
          postprocess_pixel fexp fpow
            (bloom_blur_separable fexp
              (bloom_brightpass_downsample s s.post.bloom) s.post.bloom)
            s.color true false (fmax (1/10000) s.post.tone.exposure)
            (1 / fmax (1/10) s.post.tone.gamma)
            (imax 2 s.post.bloom.downsample).toNat s.post.bloom.intensity
            xx yy)) := by
  simp only [build_postprocess_output, hben, hton]
  norm_num

/-- Core of C3: at threshold 1 with bloom on and tone off, every output
pixel's rgb bytes equal the input bytes and the alpha byte is forced 255. -/
theorem postprocess_thr_one_bytes (fexp : ℚ → ℚ) (fpow : ℚ → ℚ → ℚ)
    (s : State) (hthr : s.post.bloom.threshold = 1)
    (hben : s.post.bloom.enabled = true) (hton : s.post.tone.enabled = false)
    (hbytes : ∀ b ∈ s.color, b ≤ 255) (x y : ℕ) (hx : x < s.fb_w)
    (hy : y < s.fb_h) :
    ((build_postprocess_output fexp fpow s true).1.getD
        (idx_rgba s.fb_w (x : ℤ) (y : ℤ)) 0 =
      s.color.getD (idx_rgba s.fb_w (x : ℤ) (y : ℤ)) 0) ∧
    ((build_postprocess_output fexp fpow s true).1.getD
        (idx_rgba s.fb_w (x : ℤ) (y : ℤ) + 1) 0 =
      s.color.getD (idx_rgba s.fb_w (x : ℤ) (y : ℤ) + 1) 0) ∧
    ((build_postprocess_output fexp fpow s true).1.getD
        (idx_rgba s.fb_w (x : ℤ) (y : ℤ) + 2) 0 =
      s.color.getD (idx_rgba s.fb_w (x : ℤ) (y : ℤ) + 2) 0) ∧
    ((build_postprocess_output fexp fpow s true).1.getD
        (idx_rgba s.fb_w (x : ℤ) (y : ℤ) + 3) 0 = 255) := by
  have hz : ∃ n, (bloom_blur_separable fexp
      (bloom_brightpass_downsample s s.post.bloom) s.post.bloom).bloom.a =
      List.replicate n 0 :=
    bloom_blur_a_zero fexp _ s.post.bloom
      (bloom_brightpass_a_thr_one s s.post.bloom hthr hbytes)
  have hw1 : (bloom_blur_separable fexp
      (bloom_brightpass_downsample s s.post.bloom) s.post.bloom).fb_w =
      s.fb_w := by
    rw [bloom_blur_fb_w, bloom_brightpass_fb_w]
  have hpix : ∀ xx yy : ℕ, postprocess_pixel fexp fpow
      (bloom_blur_separable fexp
        (bloom_brightpass_downsample s s.post.bloom) s.post.bloom)
      s.color true false (fmax (1/10000) s.post.tone.exposure)
      (1 / fmax (1/10) s.post.tone.gamma)
      (imax 2 s.post.bloom.downsample).toNat s.post.bloom.intensity xx yy =
      [s.color.getD (idx_rgba s.fb_w (xx : ℤ) (yy : ℤ)) 0,
       s.color.getD (idx_rgba s.fb_w (xx : ℤ) (yy : ℤ) + 1) 0,
       s.color.getD (idx_rgba s.fb_w (xx : ℤ) (yy : ℤ) + 2) 0, 255] := by
    intro xx yy
    rw [postprocess_pixel_zero_bloom fexp fpow _ s.color hz hbytes _ _ _ _ xx yy,
      hw1]
  have hplen : ∀ xx yy : ℕ, (postprocess_pixel fexp fpow
      (bloom_blur_separable fexp
        (bloom_brightpass_downsample s s.post.bloom) s.post.bloom)
      s.color true false (fmax (1/10000) s.post.tone.exposure)
      (1 / fmax (1/10) s.post.tone.gamma)
      (imax 2 s.post.bloom.downsample).toNat s.post.bloom.intensity
      xx yy).length = 4 := by
    intro xx yy
    rw [hpix xx yy]
    rfl
  have hmain : ∀ k : ℕ, k < 4 →
      (build_postprocess_output fexp fpow s true).1.getD
        (idx_rgba s.fb_w (x : ℤ) (y : ℤ) + k) 0 =
      [s.color.getD (idx_rgba s.fb_w (x : ℤ) (y : ℤ)) 0,
       s.color.getD (idx_rgba s.fb_w (x : ℤ) (y : ℤ) + 1) 0,
       s.color.getD (idx_rgba s.fb_w (x : ℤ) (y : ℤ) + 2) 0, 255].getD k 0 := by
    intro k hk
    rw [postprocess_out_bytes_unfold fexp fpow s hben hton]
    have hidx : idx_rgba s.fb_w (x : ℤ) (y : ℤ) + k =
        y * (s.fb_w * 4) + (x * 4 + k) := by
      rw [idx_rgba_natCast]
      ring
    rw [hidx]
    rw [getD_flatMap_uniform _ (s.fb_w * 4) 0 (List.range s.fb_h) y (x * 4 + k)
      (fun a _ => by
        rw [length_flatMap_uniform _ 4 (List.range s.fb_w)
          (fun b _ => hplen b a), List.length_range])
      (by omega) (by simpa using hy)]
    rw [getD_range _ _ hy]
    rw [getD_flatMap_uniform _ 4 0 (List.range s.fb_w) x k
      (fun b _ => hplen b y) hk (by simpa using hx)]
    rw [getD_range _ _ hx]
    rw [hpix x y]
  exact ⟨hmain 0 (by omega), hmain 1 (by omega), hmain 2 (by omega),
    hmain 3 (by omega)⟩

/-- A concrete 1x1 surface whose single pixel has alpha 128, with bloom
enabled at threshold 1 and tone mapping disabled. -/
def c3state : State :=
  { wstate with fb_w := 1, fb_h := 1, color := [5, 6, 7, 128],
                post := ⟨⟨true, 1, 2, 2, 0⟩, ⟨false, 1, 1⟩⟩ }

/-- C3 counterexample: at threshold 1 with tone off, the post-processed
output of the concrete surface is not byte-for-byte equal to the input
color buffer — the post-process forces the alpha byte from 128 to 255. -/
theorem bloom_threshold_one_alpha_cex :
    (build_postprocess_output (fun _ => 1) (fun q _ => q) c3state true).1 ≠
      c3state.color := by
  intro h
  have hh := postprocess_thr_one_bytes (fun _ => 1) (fun q _ => q) c3state
    rfl rfl rfl (by decide) 0 0 (by decide) (by decide)
  have halpha := hh.2.2.2
  rw [h] at halpha
  simp [c3state, wstate, idx_rgba] at halpha

/-- C3 (amended): with threshold 1.0 the brightpass contributes zero to
every cell of the bloom buffer, and with bloom enabled at threshold 1.0
and tone mapping disabled the post-processed output keeps every pixel's
r, g and b bytes equal to the input while forcing every alpha byte to 255
(so it equals the input buffer exactly iff every input alpha is 255). -/
theorem bloom_threshold_one_neutral (fexp : ℚ → ℚ) (fpow : ℚ → ℚ → ℚ)
    (s : State) (hthr : s.post.bloom.threshold = 1)
    (hben : s.post.bloom.enabled = true) (hton : s.post.tone.enabled = false)
    (hbytes : ∀ b ∈ s.color, b ≤ 255) :
    (∀ i, (bloom_brightpass_downsample s s.post.bloom).bloom.a.getD i 0 = 0) ∧
    (∀ x y : ℕ, x < s.fb_w → y < s.fb_h →
      ((build_postprocess_output fexp fpow s true).1.getD
          (idx_rgba s.fb_w (x : ℤ) (y : ℤ)) 0 =
        s.color.getD (idx_rgba s.fb_w (x : ℤ) (y : ℤ)) 0) ∧
      ((build_postprocess_output fexp fpow s true).1.getD
          (idx_rgba s.fb_w (x : ℤ) (y : ℤ) + 1) 0 =
        s.color.getD (idx_rgba s.fb_w (x : ℤ) (y : ℤ) + 1) 0) ∧
      ((build_postprocess_output fexp fpow s true).1.getD
          (idx_rgba s.fb_w (x : ℤ) (y : ℤ) + 2) 0 =
        s.color.getD (idx_rgba s.fb_w (x : ℤ) (y : ℤ) + 2) 0) ∧
      ((build_postprocess_output fexp fpow s true).1.getD
          (idx_rgba s.fb_w (x : ℤ) (y : ℤ) + 3) 0 = 255)) := by
  constructor
  · intro i
    obtain ⟨n, hn⟩ := bloom_brightpass_a_thr_one s s.post.bloom hthr hbytes
    rw [hn]
    exact getD_replicate_zero n i
  · intro x y hx hy
    exact postprocess_thr_one_bytes fexp fpow s hthr hben hton hbytes x y hx hy

/-- Witness for C3's amended theorem at the concrete surface: the bloom
buffer cell 0 is zero and the red byte of pixel (0,0) survives unchanged. -/
theorem bloom_threshold_one_neutral_witness :
    (bloom_brightpass_downsample c3state c3state.post.bloom).bloom.a.getD 0 0
      = 0 ∧
    (build_postprocess_output (fun _ => 1) (fun q _ => q) c3state true).1.getD
      0 0 = c3state.color.getD 0 0 := by
  have h := bloom_threshold_one_neutral (fun _ => 1) (fun q _ => q) c3state
    rfl rfl rfl (by decide)
  refine ⟨h.1 0, ?_⟩
  have h2 := (h.2 0 0 (by decide) (by decide)).1
  simpa [idx_rgba] using h2

end Engine
